import Mathlib

/-!
Verification of the webglue-api mirroring engine
(src/app/http/controllers/MirroringController.ts).

The TypeScript source is shallowly embedded below.  Strings are Lean
`String`s; the three path-classification regexes of `getAbsolutePath`
(lines 256-258) are embedded as executable matchers over `List Char`;
JavaScript `String.prototype.split`, `Array.prototype.join` and
`String.prototype.trimLeft` are embedded as `jsSplit`, `joinPaths` and
`trimLeftL`; the CSS `url(...)` regex of `stylePathReplacer` and
`changeAssetsURL` (a backtracking regex with a lazy group) is embedded as
the deterministic matcher `matchUrlAt`, and JavaScript's global
`String.replace` as `replaceStyleFuel`.  A fallible operation (the
`exec` call in `stylePathReplacer`, which throws on a null match) is
embedded with `Option`.
-/

namespace Webglue

/-- Target URL as used by `getAbsolutePath`: `this.url.host` and
`this.url.pathname` (the spec's `TargetURL`). -/
structure TargetURL where
  host : String
  pathname : String

/-- The single-quote character (code 39), kept out of literals. -/
def sqChar : Char := Char.ofNat 39

/-- The double-quote character (code 34), kept out of literals. -/
def dqChar : Char := Char.ofNat 34

/-- Membership in the character class `[A-z0-9\-%._~()'!*:@,;+&=?#]`
shared by the three path regexes of `getAbsolutePath` (lines 256-258).
Note `A-z` is the raw code range 65..122, which also contains
`[ \ ] ^ _` and the backtick. -/
def pathChar (c : Char) : Bool :=
  ('A' ≤ c && c ≤ 'z') || ('0' ≤ c && c ≤ '9') ||
  c == '-' || c == '%' || c == '.' || c == '_' || c == '~' || c == '(' || c == ')' ||
  c == sqChar || c == '!' || c == '*' || c == ':' || c == '@' || c == ',' ||
  c == ';' || c == '+' || c == '&' || c == '=' || c == '?' || c == '#'

/-- Matcher for the segment grammar `(([C]+\/)*[C]*$)?$` that each of the
three regexes applies after its prefix: a run of `pathChar`s and
slashes with no leading slash and no empty interior segment.  The flag
records whether a `/` may come next (i.e. whether the current segment
is nonempty). -/
def grammarFrom : Bool → List Char → Bool
  | _, [] => true
  | canSlash, c :: rest =>
    if c == '/' then canSlash && grammarFrom false rest
    else pathChar c && grammarFrom true rest

/-- The negative lookaheads `(?!data:)(?!javascript:)` of
`currentPathRegex` (line 257). -/
def notDataJs (l : List Char) : Bool :=
  !((l.take 5 == ['d', 'a', 't', 'a', ':']) ||
    (l.take 11 == ['j', 'a', 'v', 'a', 's', 'c', 'r', 'i', 'p', 't', ':']))

/-- `rootPathRegex.test` (line 256): `^\/(([C]+\/)*[C]*$)?$`. -/
def rootPathTest : List Char → Bool
  | [] => false
  | c :: rest => (c == '/') && grammarFrom false rest

/-- `currentPathRegex.test` (line 257):
`^(?!data:)(?!javascript:)(([C]+\/)*[C]*$)?$`. -/
def currentPathTest (l : List Char) : Bool :=
  notDataJs l && grammarFrom false l

/-- `parentPathRegex.test` (line 258): `^\.\.\/(([C]+\/)*[C]*$)?$`. -/
def parentPathTest : List Char → Bool
  | c1 :: c2 :: c3 :: rest =>
    (c1 == '.') && (c2 == '.') && (c3 == '/') && grammarFrom false rest
  | _ => false

/-- JavaScript `String.prototype.split` with a one-character separator,
on the underlying character list: keeps empty pieces, `"" ↦ [""]`. -/
def splitChar (sep : Char) : List Char → List (List Char)
  | [] => [[]]
  | c :: rest =>
    let r := splitChar sep rest
    if c == sep then [] :: r
    else
      match r with
      | h :: t => (c :: h) :: t
      | [] => [[c]]

/-- JavaScript `s.split(sep)` for a one-character separator. -/
def jsSplit (sep : Char) (s : String) : List String :=
  (splitChar sep s.data).map String.mk

/-- JavaScript `Array.prototype.join(sep)`. -/
def joinPaths (sep : String) : List String → String
  | [] => ""
  | [a] => a
  | a :: b :: rest => a ++ sep ++ joinPaths sep (b :: rest)

/-- JavaScript `String.prototype.trimLeft` on a character list. -/
def trimLeftL : List Char → List Char
  | [] => []
  | c :: rest => if c.isWhitespace then trimLeftL rest else c :: rest

/-- `MirroringController.getAbsolutePath` (lines 250-278): classify
`path` with the three regexes, in source order, and rewrite it against
the target URL; otherwise return it unchanged.
`slice(0, -1)` is `dropLast`, `slice(0, -2)` is `dropLast` twice,
`slice(1)` is `drop 1`, `split('/')` is `jsSplit '/'` and `join('/')`
is `joinPaths "/"`. -/
def getAbsolutePath (u : TargetURL) (path : String) : String :=
  if rootPathTest path.data then
    "https://" ++ u.host ++ path
  else if currentPathTest path.data then
    let currentPaths := (jsSplit '/' u.pathname).dropLast
    let assetPaths := jsSplit '/' path
    "https://" ++ u.host ++ joinPaths "/" (currentPaths ++ assetPaths)
  else if parentPathTest path.data then
    let parentPaths := ((jsSplit '/' u.pathname).dropLast).dropLast
    let assetPaths := (jsSplit '/' path).drop 1
    "https://" ++ u.host ++ joinPaths "/" (parentPaths ++ assetPaths)
  else
    path

/-- The srcset rewriting loop of `changeAssetsURL` (lines 204-220):
split on commas, trim each candidate's left whitespace, split the
candidate on spaces, absolutize its first token, rejoin with spaces,
rejoin the candidates with commas.  `split` never returns an empty
array, so the `[]` arm is unreachable. -/
def rewriteSrcset (u : TargetURL) (v : String) : String :=
  joinPaths "," ((jsSplit ',' v).map (fun src0 =>
    let src := String.mk (trimLeftL src0.data)
    match jsSplit ' ' src with
    | [] => ""
    | t :: ts => joinPaths " " (getAbsolutePath u t :: ts)))

/-- Quote characters, as in the class `['"]` of `stylePathRegex`. -/
def isQuote (c : Char) : Bool := (c == sqChar) || (c == dqChar)

/-- Characters allowed in the lazy inner group `[^'"()]+?` of
`stylePathRegex` (lines 222 and 287). -/
def isInner (c : Char) : Bool :=
  !((c == sqChar) || (c == dqChar) || (c == '(') || (c == ')'))

/-- Backtracking-faithful matcher for the part of
`url\(['"]?([^'"()]+?)['"]?\)` after at least one inner character has
been read.  `acc` is the capture group so far, `con` everything
consumed after the opening `(`.  The lazy `+?` tries to close first
(closing quote then `)`, or bare `)`) and only then extends the inner
group; a quote not followed by `)` kills every longer alternative.
Returns (capture, consumed, remainder). -/
def matchTail (acc con : List Char) : List Char → Option (List Char × List Char × List Char)
  | [] => none
  | c :: rest =>
    if c == ')' then some (acc, con ++ [c], rest)
    else if isQuote c then
      match rest with
      | d :: rest2 => if d == ')' then some (acc, con ++ [c, d], rest2) else none
      | [] => none
    else if isInner c then matchTail (acc ++ [c]) (con ++ [c]) rest
    else none

/-- Matcher for `['"]?([^'"()]+?)['"]?\)` (the part of `stylePathRegex`
after the literal `url(`): an optional opening quote, then
`matchTail`.  When the first character is a quote the no-quote
alternative cannot apply, since a quote is not an inner character. -/
def matchAfterParen : List Char → Option (List Char × List Char × List Char)
  | [] => none
  | c :: rest =>
    if isQuote c then
      match rest with
      | [] => none
      | d :: rest2 => if isInner d then matchTail [d] [c, d] rest2 else none
    else if isInner c then matchTail [c] [c] rest
    else none

/-- Match of `stylePathRegex` anchored at the head of `l`: the literal
`url(` then `matchAfterParen`.  Returns (matched substring, capture
group, remainder of `l`). -/
def matchUrlAt (l : List Char) : Option (List Char × List Char × List Char) :=
  match l with
  | c1 :: c2 :: c3 :: c4 :: t =>
    if (c1 == 'u') && (c2 == 'r') && (c3 == 'l') && (c4 == '(') then
      match matchAfterParen t with
      | some (cap, con, r) => some (c1 :: c2 :: c3 :: c4 :: con, cap, r)
      | none => none
    else none
  | _ => none

/-- `new RegExp(stylePathRegex).exec(s)` restricted to its capture
group (line 289): the first match of `stylePathRegex` anywhere in `s`,
scanning left to right; `none` models a null match result. -/
def execFirstCapture : List Char → Option (List Char)
  | [] => none
  | c :: rest =>
    match matchUrlAt (c :: rest) with
    | some (_, cap, _) => some cap
    | none => execFirstCapture rest

/-- Character-list matcher behind `String.prototype.startsWith`. -/
def startsWithL : List Char → List Char → Bool
  | [], _ => true
  | _ :: _, [] => false
  | p :: ps, c :: cs => (p == c) && startsWithL ps cs

/-- JavaScript `s.startsWith(pre)`. -/
def strStartsWith (s pre : String) : Bool := startsWithL pre.data s.data

/-- `MirroringController.stylePathReplacer` (lines 286-301): re-run the
regex on the matched substring, absolutize the capture, and re-emit in
the original quoting style.  In the source, a null `exec` result makes
the member access `extractedURL[1]` throw; that failure is the `none`
value here. -/
def stylePathReplacer (u : TargetURL) (stylePath : String) : Option String :=
  match execFirstCapture stylePath.data with
  | none => none
  | some cap =>
    let absolutePath := getAbsolutePath u (String.mk cap)
    if strStartsWith stylePath ("url(" ++ String.singleton dqChar) then
      some ("url(" ++ String.singleton dqChar ++ absolutePath ++ String.singleton dqChar ++ ")")
    else if strStartsWith stylePath ("url(" ++ String.singleton sqChar) then
      some ("url(" ++ String.singleton sqChar ++ absolutePath ++ String.singleton sqChar ++ ")")
    else
      some ("url(" ++ absolutePath ++ ")")

/-- Global `String.replace(stylePathRegex, s => stylePathReplacer(s))`
as used on style attributes and style tags (lines 224-242): scan left
to right, replace each non-overlapping match, copy everything else;
`none` propagates a throwing replacer call.  The recursion is driven
by a fuel counter: every step consumes at least one input character,
so `l.length` fuel always suffices (the fuel-exhaustion `none` is
unreachable, as the totality theorem below proves). -/
def replaceStyleFuel (u : TargetURL) : Nat → List Char → Option (List Char)
  | _, [] => some []
  | 0, _ :: _ => none
  | fuel + 1, c :: rest =>
    match matchUrlAt (c :: rest) with
    | some (m, _, r) =>
      match stylePathReplacer u (String.mk m) with
      | some repl => (replaceStyleFuel u fuel r).map (fun out => repl.data ++ out)
      | none => none
    | none => (replaceStyleFuel u fuel rest).map (fun out => c :: out)

/-- Style rewriting of a whole CSS text. -/
def replaceStyle (u : TargetURL) (css : String) : Option String :=
  (replaceStyleFuel u css.data.length css.data).map String.mk

/-- The external cache gateway's `isCached` check consulted by
`getHTML` (line 78), on an association-list model of the cache. -/
def isCached (cache : List (String × String)) (url : String) : Bool :=
  cache.any (fun e => e.1 == url)

/-- The external cache gateway's `getSerializedHTML` lookup (line 81). -/
def getSerializedHTML (cache : List (String × String)) (url : String) : String :=
  ((cache.find? (fun e => e.1 == url)).map Prod.snd).getD ""

/-- Control flow of `MirroringController.getHTML` (lines 67-99): on a
cache hit return the stored document; otherwise run the one fetch and
the rewriting pipeline inside try/catch — on a thrown error answer 406
carrying the error and write nothing, on success cache the rewritten
document and answer 200 with it.  `fetch` is the sequence of possible
outbound request outcomes, of which the handler performs exactly one
(`fetch 0`, the single `request` call of `requestHTML`, lines 124-146);
`process` abstracts the DOM steps `fetchAssetElements` and
`changeAssetsURL`.  The result is (status, body, cache after). -/
def getHTML (cache : List (String × String)) (url : String)
    (fetch : Nat → Except String String) (process : String → Except String String) :
    Nat × String × List (String × String) :=
  if isCached cache url then
    (200, getSerializedHTML cache url, cache)
  else
    match fetch 0 with
    | Except.error msg => (406, msg, cache)
    | Except.ok body =>
      match process body with
      | Except.error msg => (406, msg, cache)
      | Except.ok doc => (200, doc, (url, doc) :: cache)

/-! Helper lemmas. -/

theorem strExt {s t : String} (h : s.data = t.data) : s = t := by
  cases s; cases t; exact congrArg String.mk h

theorem data_https_append (t : String) :
    ("https://" ++ t).data =
      'h' :: 't' :: 't' :: 'p' :: 's' :: ':' :: '/' :: '/' :: t.data := by
  rw [String.data_append,
    show "https://".data = ['h', 't', 't', 'p', 's', ':', '/', '/'] from rfl]
  rfl

theorem https_not_root (t : String) : rootPathTest ("https://" ++ t).data = false := by
  rw [data_https_append]
  rfl

theorem https_not_current (t : String) : currentPathTest ("https://" ++ t).data = false := by
  rw [data_https_append]
  rfl

theorem https_not_parent (t : String) : parentPathTest ("https://" ++ t).data = false := by
  rw [data_https_append]
  rfl

/-- A string of the shape `https://...` matches none of the three path
regexes (its third and fourth slashes make the segment grammar fail),
so `getAbsolutePath` passes it through unchanged. -/
theorem getAbsolutePath_https (u : TargetURL) (t : String) :
    getAbsolutePath u ("https://" ++ t) = "https://" ++ t := by
  unfold getAbsolutePath
  rw [https_not_root, https_not_current, https_not_parent]
  simp

/-- C3: applying `getAbsolutePath` to its own output returns that
output unchanged — every rewritten branch produces an `https://`-prefixed
string that re-classifies as opaque/absolute, and an untouched path
stays untouched, so absolutization is a projection. -/
theorem absolutize_projection (u : TargetURL) (p : String) :
    getAbsolutePath u (getAbsolutePath u p) = getAbsolutePath u p := by
  by_cases h1 : rootPathTest p.data = true
  · have e : getAbsolutePath u p = "https://" ++ (u.host ++ p) := by
      unfold getAbsolutePath
      rw [if_pos h1, String.append_assoc]
    rw [e]
    exact getAbsolutePath_https u _
  · by_cases h2 : currentPathTest p.data = true
    · have e : getAbsolutePath u p =
          "https://" ++ (u.host ++
            joinPaths "/" ((jsSplit '/' u.pathname).dropLast ++ jsSplit '/' p)) := by
        unfold getAbsolutePath
        rw [if_neg h1, if_pos h2, String.append_assoc]
      rw [e]
      exact getAbsolutePath_https u _
    · by_cases h3 : parentPathTest p.data = true
      · have e : getAbsolutePath u p =
            "https://" ++ (u.host ++
              joinPaths "/" (((jsSplit '/' u.pathname).dropLast).dropLast ++
                (jsSplit '/' p).drop 1)) := by
          unfold getAbsolutePath
          rw [if_neg h1, if_neg h2, if_pos h3, String.append_assoc]
        rw [e]
        exact getAbsolutePath_https u _
      · have e : getAbsolutePath u p = p := by
          unfold getAbsolutePath
          rw [if_neg h1, if_neg h2, if_neg h3]
        rw [e]
        exact e

/-- C9: a path beginning with `data:` or `javascript:` is returned by
`getAbsolutePath` unchanged — it fails the root and parent prefixes and
the current-relative lookaheads, so no branch may host-qualify it. -/
theorem opaque_scheme_passthrough (u : TargetURL) (t : String) :
    getAbsolutePath u ("data:" ++ t) = "data:" ++ t ∧
    getAbsolutePath u ("javascript:" ++ t) = "javascript:" ++ t := by
  constructor
  · have hd : ("data:" ++ t).data = 'd' :: 'a' :: 't' :: 'a' :: ':' :: t.data := by
      rw [String.data_append, show "data:".data = ['d', 'a', 't', 'a', ':'] from rfl]
      rfl
    unfold getAbsolutePath
    rw [hd]
    rfl
  · have hd : ("javascript:" ++ t).data =
        'j' :: 'a' :: 'v' :: 'a' :: 's' :: 'c' :: 'r' :: 'i' :: 'p' :: 't' :: ':' :: t.data := by
      rw [String.data_append,
        show "javascript:".data = ['j', 'a', 'v', 'a', 's', 'c', 'r', 'i', 'p', 't', ':'] from rfl]
      rfl
    unfold getAbsolutePath
    rw [hd]
    rfl

/-- C1 (code bug): the current-path regex's character class contains
`.`, so a parent-relative path such as `../img/b.png` already matches
`currentPathRegex` and is handled by the current-relative branch — the
dedicated parent-relative branch that drops two segments is dead code.
The example of the spec therefore evaluates to
`https://example.com/dir/sub/../img/b.png`, not to the specified
`https://example.com/dir/img/b.png`. -/
theorem parent_path_eval_bug :
    parentPathTest "../img/b.png".data = true ∧
    currentPathTest "../img/b.png".data = true ∧
    getAbsolutePath ⟨"example.com", "/dir/sub/page.html"⟩ "../img/b.png" =
      "https://example.com/dir/sub/../img/b.png" ∧
    getAbsolutePath ⟨"example.com", "/dir/sub/page.html"⟩ "../img/b.png" ≠
      "https://example.com/dir/img/b.png" := by
  decide

/-- C2 counterexample: the raw path `../a` matches both the
current-relative and the parent-relative regexes, so the patterns are
not mutually exclusive. -/
theorem patterns_overlap_cex :
    currentPathTest "../a".data = true ∧ parentPathTest "../a".data = true := by
  decide

/-- Inversion for the parent-relative matcher: a successful test means
the string is `../` followed by a string in the segment grammar. -/
theorem parentPathTest_eq_true {l : List Char} (h : parentPathTest l = true) :
    ∃ r, l = '.' :: '.' :: '/' :: r ∧ grammarFrom false r = true := by
  rcases l with _ | ⟨c1, _ | ⟨c2, _ | ⟨c3, r⟩⟩⟩
  · simp [parentPathTest] at h
  · simp [parentPathTest] at h
  · simp [parentPathTest] at h
  · simp only [parentPathTest, Bool.and_eq_true, beq_iff_eq] at h
    obtain ⟨⟨⟨h1, h2⟩, h3⟩, h4⟩ := h
    subst h1; subst h2; subst h3
    exact ⟨r, rfl, h4⟩

/-- C2 (amended): root-relative is exclusive with the other two
patterns, and an input matching none of the patterns passes through
`getAbsolutePath` unchanged; but current-relative and parent-relative
are not exclusive — every parent-relative match is also a
current-relative match (its character class contains `.`). -/
theorem patterns_classification_amended (u : TargetURL) (s : String) :
    (rootPathTest s.data && currentPathTest s.data) = false ∧
    (rootPathTest s.data && parentPathTest s.data) = false ∧
    (parentPathTest s.data && !currentPathTest s.data) = false ∧
    ((rootPathTest s.data || currentPathTest s.data || parentPathTest s.data) = false →
      getAbsolutePath u s = s) := by
  refine ⟨?_, ?_, ?_, ?_⟩
  · cases hl : s.data with
    | nil => rfl
    | cons c rest =>
      by_cases hc : (c == '/') = true
      · have hg : grammarFrom false (c :: rest) = false := by
          simp only [grammarFrom, hc, if_true]
          rfl
        simp [currentPathTest, hg, rootPathTest]
      · simp [rootPathTest, Bool.and_eq_false_iff, hc]
  · by_cases hp : parentPathTest s.data = true
    · obtain ⟨r, hl, _⟩ := parentPathTest_eq_true hp
      rw [hl]
      rfl
    · rw [Bool.not_eq_true] at hp
      simp [hp]
  · by_cases hp : parentPathTest s.data = true
    · obtain ⟨r, hl, hg⟩ := parentPathTest_eq_true hp
      rw [hl]
      have hc : currentPathTest ('.' :: '.' :: '/' :: r) = grammarFrom false r := rfl
      rw [hc, hg]
      simp
    · rw [Bool.not_eq_true] at hp
      simp [hp]
  · intro h
    have h3 : (rootPathTest s.data = false ∧ currentPathTest s.data = false) ∧
        parentPathTest s.data = false := by simpa using h
    unfold getAbsolutePath
    rw [h3.1.1, h3.1.2, h3.2]
    simp

/-- Witness for the amended C2 statement: the path `a b` (a space is in
no pattern's character class) matches nothing and passes through. -/
theorem patterns_classification_amended_w :
    (rootPathTest "a b".data || currentPathTest "a b".data ||
      parentPathTest "a b".data) = false ∧
    getAbsolutePath ⟨"h", "/p"⟩ "a b" = "a b" :=
  ⟨by decide, (patterns_classification_amended ⟨"h", "/p"⟩ "a b").2.2.2 (by decide)⟩

/-- A current-relative match never matches the root pattern: the
segment grammar rejects a leading slash. -/
theorem root_false_of_current {l : List Char} (h : currentPathTest l = true) :
    rootPathTest l = false := by
  cases l with
  | nil => rfl
  | cons c rest =>
    by_cases hc : (c == '/') = true
    · exfalso
      have hg : grammarFrom false (c :: rest) = true := by
        have h2 := h
        simp only [currentPathTest, Bool.and_eq_true] at h2
        exact h2.2
      simp [grammarFrom, hc] at hg
    · simp [rootPathTest, hc]

/-- C8: a path matching the current-relative pattern (and not the
parent-relative one) is absolutized by dropping the last segment of
the target's path and appending the path's segments under
`https://{host}`. -/
theorem current_relative_absolutize (u : TargetURL) (p : String)
    (hcur : currentPathTest p.data = true) (hpar : parentPathTest p.data = false) :
    getAbsolutePath u p =
      "https://" ++ u.host ++
        joinPaths "/" ((jsSplit '/' u.pathname).dropLast ++ jsSplit '/' p) := by
  unfold getAbsolutePath
  rw [root_false_of_current hcur, hcur]
  simp

/-- Witness for C8 at the spec's example. -/
theorem current_relative_absolutize_w :
    currentPathTest "img/b.png".data = true ∧
    getAbsolutePath ⟨"example.com", "/dir/page.html"⟩ "img/b.png" =
      "https://example.com/dir/img/b.png" := by
  refine ⟨by decide, ?_⟩
  have h := current_relative_absolutize ⟨"example.com", "/dir/page.html"⟩ "img/b.png"
    (by decide) (by decide)
  rw [h]
  decide

/-- Appending one empty segment before `join` adds exactly one
trailing separator. -/
theorem joinPaths_append_empty (sep : String) (L : List String) (h : L ≠ []) :
    joinPaths sep (L ++ [""]) = joinPaths sep L ++ sep := by
  induction L with
  | nil => exact absurd rfl h
  | cons a M ih =>
    cases M with
    | nil =>
      show a ++ sep ++ joinPaths sep [""] = a ++ sep
      rw [show joinPaths sep [""] = "" from rfl, String.append_empty]
    | cons b M2 =>
      have ih2 := ih (by simp)
      simp only [List.cons_append] at ih2 ⊢
      simp only [joinPaths]
      rw [ih2, ← String.append_assoc]

/-- C10: the empty raw path matches the current-relative pattern, so
`getAbsolutePath` does not pass it through: it returns `https://`,
the host, the target's path without its last segment, and a trailing
slash (the empty path contributes one empty segment). -/
theorem empty_path_current_relative (u : TargetURL)
    (h : 2 ≤ (jsSplit '/' u.pathname).length) :
    currentPathTest "".data = true ∧
    getAbsolutePath u "" =
      "https://" ++ u.host ++ joinPaths "/" ((jsSplit '/' u.pathname).dropLast) ++ "/" ∧
    getAbsolutePath u "" ≠ "" := by
  have hne : (jsSplit '/' u.pathname).dropLast ≠ [] := by
    intro hE
    have h2 : (jsSplit '/' u.pathname).length - 1 = 0 := by
      rw [← List.length_dropLast, hE]
      rfl
    omega
  have hEq : getAbsolutePath u "" =
      "https://" ++ u.host ++ joinPaths "/" ((jsSplit '/' u.pathname).dropLast) ++ "/" := by
    unfold getAbsolutePath
    rw [show rootPathTest "".data = false from rfl,
      show currentPathTest "".data = true from rfl]
    simp only [Bool.false_eq_true, if_false, if_true]
    rw [show jsSplit '/' "" = [""] from rfl,
      joinPaths_append_empty "/" _ hne, ← String.append_assoc]
  refine ⟨rfl, hEq, ?_⟩
  rw [hEq]
  intro hbad
  have hd := congrArg String.data hbad
  simp [String.data_append] at hd

/-- Witness for C10 at the spec-style target `/dir/page.html`. -/
theorem empty_path_current_relative_w :
    2 ≤ (jsSplit '/' "/dir/page.html").length ∧
    getAbsolutePath ⟨"example.com", "/dir/page.html"⟩ "" = "https://example.com/dir/" := by
  refine ⟨by decide, ?_⟩
  have h := (empty_path_current_relative ⟨"example.com", "/dir/page.html"⟩ (by decide)).2.1
  rw [h]
  decide

/-- C6: srcset rewriting at the spec's example, for an arbitrary host:
candidates are split on commas, their leading whitespace is trimmed,
only the path token is absolutized, the `1x`/`2x` descriptor suffixes
stay untouched, and the candidates are rejoined with bare commas. -/
theorem srcset_descriptor_preserved (host : String) :
    rewriteSrcset ⟨host, "/index.html"⟩ "a.png 1x, b.png 2x" =
      "https://" ++ host ++ "/a.png 1x," ++ ("https://" ++ host ++ "/b.png 2x") := by
  have hA : getAbsolutePath ⟨host, "/index.html"⟩ "a.png" =
      "https://" ++ host ++ "/a.png" := rfl
  have hB : getAbsolutePath ⟨host, "/index.html"⟩ "b.png" =
      "https://" ++ host ++ "/b.png" := rfl
  have hsplit : rewriteSrcset ⟨host, "/index.html"⟩ "a.png 1x, b.png 2x" =
      (getAbsolutePath ⟨host, "/index.html"⟩ "a.png" ++ " " ++ "1x") ++ "," ++
        (getAbsolutePath ⟨host, "/index.html"⟩ "b.png" ++ " " ++ "2x") := rfl
  rw [hsplit, hA, hB]
  apply strExt
  simp [String.data_append, List.append_assoc]

/-- C7: when the cache misses and the single outbound fetch fails, the
handler answers 406 carrying the error message and the cache is left
exactly as it was; and the outcome depends only on the one fetch that
is performed (attempt 0), so no retry can be observed.  The cache gains
an entry only on the fully successful path. -/
theorem fetch_failure_no_cache (cache : List (String × String)) (url : String)
    (f g : Nat → Except String String) (process : String → Except String String)
    (msg : String)
    (hmiss : isCached cache url = false) (hfail : f 0 = Except.error msg) :
    getHTML cache url f process = (406, msg, cache) ∧
    (g 0 = f 0 → getHTML cache url g process = getHTML cache url f process) := by
  constructor
  · unfold getHTML
    rw [hmiss, hfail]
    simp
  · intro hg
    unfold getHTML
    rw [hg]

/-- Witness for C7: empty cache, failing fetch. -/
theorem fetch_failure_no_cache_w :
    getHTML [] "u" (fun _ => Except.error "boom") (fun b => Except.ok b) =
      (406, "boom", []) :=
  (fetch_failure_no_cache [] "u" (fun _ => Except.error "boom")
    (fun _ => Except.error "boom") (fun b => Except.ok b) "boom" (by decide) rfl).1

/-- C5: quote preservation of the style replacer.  Whenever the regex
finds a capture in a matched substring, the replacer re-emits `url(...)`
around the absolutized capture with exactly the quoting style the match
opened with: a `url("` match with double quotes, a `url('` match with
single quotes, anything else unquoted. -/
theorem style_quote_preserved (u : TargetURL) (m : String) (cap : List Char)
    (hexec : execFirstCapture m.data = some cap) :
    (strStartsWith m ("url(" ++ String.singleton dqChar) = true →
      stylePathReplacer u m =
        some ("url(" ++ String.singleton dqChar ++ getAbsolutePath u (String.mk cap) ++
          String.singleton dqChar ++ ")")) ∧
    (strStartsWith m ("url(" ++ String.singleton dqChar) = false →
      strStartsWith m ("url(" ++ String.singleton sqChar) = true →
      stylePathReplacer u m =
        some ("url(" ++ String.singleton sqChar ++ getAbsolutePath u (String.mk cap) ++
          String.singleton sqChar ++ ")")) ∧
    (strStartsWith m ("url(" ++ String.singleton dqChar) = false →
      strStartsWith m ("url(" ++ String.singleton sqChar) = false →
      stylePathReplacer u m = some ("url(" ++ getAbsolutePath u (String.mk cap) ++ ")")) := by
  refine ⟨?_, ?_, ?_⟩
  · intro h1
    unfold stylePathReplacer
    rw [hexec]
    simp [h1]
  · intro h1 h2
    unfold stylePathReplacer
    rw [hexec]
    simp [h1, h2]
  · intro h1 h2
    unfold stylePathReplacer
    rw [hexec]
    simp [h1, h2]

/-- Witness for C5: the single-quoted match `url('a.png')` is re-emitted
single-quoted with the absolutized path inside. -/
theorem style_quote_preserved_w :
    execFirstCapture (String.mk (['u', 'r', 'l', '('] ++ [sqChar] ++ "a.png".data ++
      [sqChar] ++ [')'])).data = some "a.png".data ∧
    stylePathReplacer ⟨"h", "/index.html"⟩
      (String.mk (['u', 'r', 'l', '('] ++ [sqChar] ++ "a.png".data ++ [sqChar] ++ [')'])) =
      some (String.mk (['u', 'r', 'l', '('] ++ [sqChar] ++ "https://h/a.png".data ++
        [sqChar] ++ [')'])) := by
  refine ⟨by decide, ?_⟩
  have h := (style_quote_preserved ⟨"h", "/index.html"⟩
    (String.mk (['u', 'r', 'l', '('] ++ [sqChar] ++ "a.png".data ++ [sqChar] ++ [')']))
    "a.png".data (by decide)).2.1 (by decide) (by decide)
  rw [h]
  decide

/-- Restriction of a successful `matchTail` run to exactly its consumed
prefix: the run consumes `d`, and re-running on `d` alone succeeds with
the same capture and empty remainder. -/
theorem matchTail_restrict {t acc con cap conOut r : List Char}
    (h : matchTail acc con t = some (cap, conOut, r)) :
    ∃ d, t = d ++ r ∧ conOut = con ++ d ∧ matchTail acc con d = some (cap, conOut, []) := by
  induction t generalizing acc con with
  | nil => simp [matchTail] at h
  | cons a as ih =>
    simp only [matchTail] at h
    split at h
    · rename_i ha
      cases h
      refine ⟨[a], rfl, rfl, ?_⟩
      simp [matchTail, ha]
    · rename_i ha
      split at h
      · rename_i hq
        split at h
        · rename_i d0 rest2
          split at h
          · rename_i hd
            cases h
            refine ⟨[a, d0], rfl, rfl, ?_⟩
            simp [matchTail, ha, hq, hd]
          · cases h
        · cases h
      · rename_i hq
        split at h
        · rename_i hi
          obtain ⟨d, hd1, hd2, hd3⟩ := ih h
          refine ⟨a :: d, by rw [hd1]; rfl, ?_, ?_⟩
          · rw [hd2]
            simp
          · have hstep : matchTail acc con (a :: d) =
                matchTail (acc ++ [a]) (con ++ [a]) d := by
              simp only [matchTail]
              simp [ha, hq, hi]
            rw [hstep]
            exact hd3
        · cases h

/-- Restriction of a successful `matchAfterParen` run: the input splits
as consumed part plus remainder, and the consumed part alone matches
with empty remainder. -/
theorem matchAfterParen_restrict {t cap con r : List Char}
    (h : matchAfterParen t = some (cap, con, r)) :
    t = con ++ r ∧ matchAfterParen con = some (cap, con, []) := by
  cases t with
  | nil => simp [matchAfterParen] at h
  | cons a as =>
    simp only [matchAfterParen] at h
    split at h
    · rename_i hq
      split at h
      · cases h
      · rename_i d rest2
        split at h
        · rename_i hi
          obtain ⟨e, he1, he2, he3⟩ := matchTail_restrict h
          rw [he2] at he3 ⊢
          constructor
          · rw [he1]
            simp
          · simp only [List.cons_append, List.nil_append]
            have hstep : matchAfterParen (a :: d :: e) = matchTail [d] [a, d] e := by
              simp only [matchAfterParen]
              simp [hq, hi]
            rw [hstep]
            exact he3
        · cases h
    · rename_i hq
      split at h
      · rename_i hi
        obtain ⟨e, he1, he2, he3⟩ := matchTail_restrict h
        rw [he2] at he3 ⊢
        constructor
        · rw [he1]
          simp
        · simp only [List.cons_append, List.nil_append]
          have hstep : matchAfterParen (a :: e) = matchTail [a] [a] e := by
            simp only [matchAfterParen]
            simp [hq, hi]
          rw [hstep]
          exact he3
      · cases h

/-- Restriction of a successful anchored match: the input splits as
matched substring plus remainder, and the matched substring alone
matches itself completely. -/
theorem matchUrlAt_restrict {l m cap r : List Char}
    (h : matchUrlAt l = some (m, cap, r)) :
    l = m ++ r ∧ matchUrlAt m = some (m, cap, []) := by
  rcases l with _ | ⟨c1, _ | ⟨c2, _ | ⟨c3, _ | ⟨c4, t⟩⟩⟩⟩
  · simp [matchUrlAt] at h
  · simp [matchUrlAt] at h
  · simp [matchUrlAt] at h
  · simp [matchUrlAt] at h
  · simp only [matchUrlAt] at h
    split at h
    · rename_i hc
      split at h
      · rename_i heq
        cases h
        obtain ⟨ht, hm⟩ := matchAfterParen_restrict heq
        constructor
        · rw [ht]
          rfl
        · simp only [matchUrlAt]
          rw [if_pos hc, hm]
      · cases h
    · cases h

/-- Re-running `exec` on a matched substring finds the same capture:
this is why the replacer's second regex run cannot return null inside
the global replace. -/
theorem exec_of_matchUrl {l m cap r : List Char}
    (h : matchUrlAt l = some (m, cap, r)) :
    execFirstCapture m = some cap := by
  have hm := (matchUrlAt_restrict h).2
  rcases m with _ | ⟨c1, mrest⟩
  · simp [matchUrlAt] at hm
  · simp only [execFirstCapture]
    rw [hm]

/-- On a matched substring the style replacer always produces a value. -/
theorem replacer_some_of_match (u : TargetURL) {l m cap r : List Char}
    (h : matchUrlAt l = some (m, cap, r)) :
    (stylePathReplacer u (String.mk m)).isSome = true := by
  have he : execFirstCapture (String.mk m).data = some cap := exec_of_matchUrl h
  simp only [stylePathReplacer, he]
  split
  · rfl
  · split
    · rfl
    · rfl

/-- With fuel at least the input length, the global style replace
always produces a value: every matched substring re-matches when the
replacer re-runs the regex on it, and every step consumes at least one
character. -/
theorem replaceStyleFuel_total (u : TargetURL) :
    ∀ (fuel : Nat) (l : List Char), l.length ≤ fuel →
      (replaceStyleFuel u fuel l).isSome = true := by
  intro fuel
  induction fuel with
  | zero =>
    intro l hl
    cases l with
    | nil => rfl
    | cons c rest => simp at hl
  | succ n ih =>
    intro l hl
    cases l with
    | nil => rfl
    | cons c rest =>
      cases hm : matchUrlAt (c :: rest) with
      | none =>
        have hrec := ih rest (by simp at hl; omega)
        obtain ⟨out, hout⟩ := Option.isSome_iff_exists.mp hrec
        show ((match matchUrlAt (c :: rest) with
          | some (m, _, r) =>
            match stylePathReplacer u (String.mk m) with
            | some repl => (replaceStyleFuel u n r).map (fun out => repl.data ++ out)
            | none => none
          | none => (replaceStyleFuel u n rest).map (fun out => c :: out))).isSome = true
        rw [hm]
        show ((replaceStyleFuel u n rest).map (fun out => c :: out)).isSome = true
        rw [hout]
        rfl
      | some trip =>
        obtain ⟨m, cap, r⟩ := trip
        have hrepl := replacer_some_of_match u hm
        obtain ⟨repl, hrepl2⟩ := Option.isSome_iff_exists.mp hrepl
        have hsplit := (matchUrlAt_restrict hm).1
        have hmne : m ≠ [] := by
          intro hE
          have h2 := (matchUrlAt_restrict hm).2
          rw [hE] at h2
          simp [matchUrlAt] at h2
        have hr : r.length ≤ n := by
          have hlen : (c :: rest).length = m.length + r.length := by
            rw [hsplit]
            simp
          have hm1 : 1 ≤ m.length := by
            cases m with
            | nil => exact absurd rfl hmne
            | cons x xs => simp
          simp only [List.length_cons] at hlen hl
          omega
        have hrec := ih r hr
        obtain ⟨out, hout⟩ := Option.isSome_iff_exists.mp hrec
        show ((match matchUrlAt (c :: rest) with
          | some (m, _, r) =>
            match stylePathReplacer u (String.mk m) with
            | some repl => (replaceStyleFuel u n r).map (fun out => repl.data ++ out)
            | none => none
          | none => (replaceStyleFuel u n rest).map (fun out => c :: out))).isSome = true
        rw [hm]
        show ((match stylePathReplacer u (String.mk m) with
          | some repl => (replaceStyleFuel u n r).map (fun out => repl.data ++ out)
          | none => none)).isSome = true
        rw [hrepl2]
        show ((replaceStyleFuel u n r).map (fun out => repl.data ++ out)).isSome = true
        rw [hout]
        rfl

/-- C4: rewriting is total.  The global style replace never fails on
any CSS text and any target URL (in particular the replacer's inner
`exec` never returns null on a matched substring), and `getAbsolutePath`
passes any path matching none of the three patterns through unchanged. -/
theorem rewrite_total (u : TargetURL) (css : String) :
    (replaceStyle u css).isSome = true ∧
    (∀ p : String, rootPathTest p.data = false → currentPathTest p.data = false →
      parentPathTest p.data = false → getAbsolutePath u p = p) := by
  constructor
  · unfold replaceStyle
    have hrec := replaceStyleFuel_total u css.data.length css.data (le_refl _)
    obtain ⟨out, hout⟩ := Option.isSome_iff_exists.mp hrec
    rw [hout]
    rfl
  · intro p h1 h2 h3
    unfold getAbsolutePath
    rw [h1, h2, h3]
    simp

/-- Witness for C4: a CSS text with one match rewrites successfully,
and an unclassifiable path (it contains a space) passes through. -/
theorem rewrite_total_w :
    (replaceStyle ⟨"h", "/p"⟩ "url(a.png)").isSome = true ∧
    getAbsolutePath ⟨"h", "/p"⟩ "x y" = "x y" := by
  have h := rewrite_total ⟨"h", "/p"⟩ "url(a.png)"
  exact ⟨h.1, h.2 "x y" (by decide) (by decide) (by decide)⟩

end Webglue
